import Mathlib

/-!
# MIL_UART: a shallow embedding of the UART abstraction layer

Source: `MIL_FIRMWARE_UART/MIL_UART.c` (with `MIL_UART.h`), and the polled echo
loop of `MIL_FIRMWARE_UART/main_polled.c`.

Every function of `MIL_UART.c` is a straight sequence of calls into the vendor
peripheral driver library.  The embedding makes those calls observable: a
function of the layer is a Lean function that returns the list of driver calls
it issues, in program order (`List DriverCall`).  Values of C type `uint32_t`
and `uint8_t` are natural numbers; the only arithmetic of the layer that can
wrap is the `uint8_t` loop counter of `MIL_UART_OutArray`, which is reduced
modulo `2 ^ 8` explicitly.

The vendor headers are not part of the sources.  The macros the layer passes
to the driver as selectors are embedded as constructors that keep the macro
names; the eight UART base addresses, against which `MIL_InitUART` compares
its argument, are a parameter (`HwMemmap`).
-/

namespace MIL

/-! ## Vendor selectors used by the layer -/

/-- GPIO ports named by the pin map of `MIL_UART.h`. -/
inductive Port
  | A | B | C | D | E | F
  deriving DecidableEq, Repr

/-- Direction of a UART pin. -/
inductive Role
  | RX | TX
  deriving DecidableEq, Repr

/-- Clock-gate selectors: the `SYSCTL_PERIPH_*` macros that appear in
`MIL_InitUART`. -/
inductive SysCtlPeriph
  | SYSCTL_PERIPH_UART0 | SYSCTL_PERIPH_UART1 | SYSCTL_PERIPH_UART2 | SYSCTL_PERIPH_UART3
  | SYSCTL_PERIPH_UART4 | SYSCTL_PERIPH_UART5 | SYSCTL_PERIPH_UART6 | SYSCTL_PERIPH_UART7
  | SYSCTL_PERIPH_GPIOA | SYSCTL_PERIPH_GPIOB | SYSCTL_PERIPH_GPIOC | SYSCTL_PERIPH_GPIOD
  | SYSCTL_PERIPH_GPIOE | SYSCTL_PERIPH_GPIOF
  deriving DecidableEq, Repr

/-- Alternate-function selectors: the `GPIO_Pxn_UmRX` / `GPIO_Pxn_UmTX` macros
that appear in `MIL_InitUART`. -/
inductive PinMux
  | GPIO_PA0_U0RX | GPIO_PA1_U0TX
  | GPIO_PB0_U1RX | GPIO_PB1_U1TX
  | GPIO_PD6_U2RX | GPIO_PD7_U2TX
  | GPIO_PC6_U3RX | GPIO_PC7_U3TX
  | GPIO_PC4_U4RX | GPIO_PC5_U4TX
  | GPIO_PE4_U5RX | GPIO_PE5_U5TX
  | GPIO_PD4_U6RX | GPIO_PD5_U6TX
  | GPIO_PE0_U7RX | GPIO_PE1_U7TX
  deriving DecidableEq, Repr

/-- GPIO port base selectors: the `GPIO_PORTx_BASE` macros that appear in
`MIL_InitUART`. -/
inductive GpioBase
  | GPIO_PORTA_BASE | GPIO_PORTB_BASE | GPIO_PORTC_BASE | GPIO_PORTD_BASE
  | GPIO_PORTE_BASE | GPIO_PORTF_BASE
  deriving DecidableEq, Repr

/-- FIFO interrupt levels: the `UART_FIFO_TXk_8` / `UART_FIFO_RXk_8` macros that
appear in `MIL_UART_FIFOEn`.  TX and RX macros live in one type, as they are
all `uint32_t` values in the source, so that a TX macro in the RX position (or
the converse) is expressible. -/
inductive FifoLevel
  | UART_FIFO_TX1_8 | UART_FIFO_TX2_8 | UART_FIFO_TX4_8 | UART_FIFO_TX6_8 | UART_FIFO_TX7_8
  | UART_FIFO_RX1_8 | UART_FIFO_RX2_8 | UART_FIFO_RX4_8 | UART_FIFO_RX6_8 | UART_FIFO_RX7_8
  deriving DecidableEq, Repr

/-- Frame-format flags: the `UART_CONFIG_*` macros that appear in
`MIL_InitUART`. -/
inductive ConfigFlag
  | UART_CONFIG_WLEN_8 | UART_CONFIG_STOP_ONE | UART_CONFIG_PAR_NONE
  deriving DecidableEq, Repr

/-- Pin masks: the `GPIO_PIN_n` macros, which `MIL_InitUART` ORs together in
the second argument of `GPIOPinTypeUART`. -/
inductive GpioPin
  | GPIO_PIN_0 | GPIO_PIN_1 | GPIO_PIN_2 | GPIO_PIN_3
  | GPIO_PIN_4 | GPIO_PIN_5 | GPIO_PIN_6 | GPIO_PIN_7
  deriving DecidableEq, Repr

/-- The UART base addresses `UARTn_BASE` of the vendor header
`inc/hw_memmap.h`, which is not among the sources.  `MIL_InitUART` uses them as
the `case` labels of one `switch`, so they are pairwise distinct (C rejects a
duplicate label). -/
structure HwMemmap where
  UART0_BASE : Nat
  UART1_BASE : Nat
  UART2_BASE : Nat
  UART3_BASE : Nat
  UART4_BASE : Nat
  UART5_BASE : Nat
  UART6_BASE : Nat
  UART7_BASE : Nat
  distinct : [UART0_BASE, UART1_BASE, UART2_BASE, UART3_BASE,
              UART4_BASE, UART5_BASE, UART6_BASE, UART7_BASE].Nodup

/-- Base address of UART `n`. -/
def HwMemmap.base (hw : HwMemmap) : Fin 8 → Nat
  | 0 => hw.UART0_BASE
  | 1 => hw.UART1_BASE
  | 2 => hw.UART2_BASE
  | 3 => hw.UART3_BASE
  | 4 => hw.UART4_BASE
  | 5 => hw.UART5_BASE
  | 6 => hw.UART6_BASE
  | 7 => hw.UART7_BASE

/-- An instance of the parameter: the UART base addresses of the TM4C123 (the
Launchpad of the demos). -/
def tm4c123 : HwMemmap where
  UART0_BASE := 0x4000C000
  UART1_BASE := 0x4000D000
  UART2_BASE := 0x4000E000
  UART3_BASE := 0x4000F000
  UART4_BASE := 0x40010000
  UART5_BASE := 0x40011000
  UART6_BASE := 0x40012000
  UART7_BASE := 0x40013000
  distinct := by decide

/-! ## Driver calls -/

/-- One call into the vendor driver library, with its actual arguments.  An
argument that the source builds by OR-ing macros (the pins of
`GPIOPinTypeUART`, the flags of `UARTConfigSetExpClk`) is the list of those
macros in source order.  `SysCtlClockGet` is the call of the clock getter (its
result is the `sysclk` argument of `MIL_InitUART`). -/
inductive DriverCall
  | SysCtlPeripheralEnable (ui32Peripheral : SysCtlPeriph)
  | GPIOPinConfigure (ui32PinConfig : PinMux)
  | GPIOPinTypeUART (ui32Port : GpioBase) (ui8Pins : List GpioPin)
  | SysCtlClockGet
  | UARTConfigSetExpClk (ui32Base ui32UARTClk ui32Baud : Nat) (ui32Config : List ConfigFlag)
  | UARTEnable (ui32Base : Nat)
  | UARTFIFODisable (ui32Base : Nat)
  | UARTFIFOEnable (ui32Base : Nat)
  | UARTFIFOLevelSet (ui32Base : Nat) (ui32TxLevel ui32RxLevel : FifoLevel)
  | UARTIntEnable (ui32Base ui32IntFlags : Nat)
  | UARTIntRegister (ui32Base pfnHandler : Nat)
  | UARTCharPut (ui32Base ucData : Nat)
  | UARTCharsAvail (ui32Base : Nat)
  | UARTCharGet (ui32Base : Nat)
  deriving DecidableEq, Repr

open SysCtlPeriph PinMux GpioBase GpioPin FifoLevel ConfigFlag DriverCall

/-! ## Reading the selectors -/

/-- Fill fraction, in eighths of the FIFO, named by a level macro. -/
def FifoLevel.eighths : FifoLevel → Nat
  | UART_FIFO_TX1_8 | UART_FIFO_RX1_8 => 1
  | UART_FIFO_TX2_8 | UART_FIFO_RX2_8 => 2
  | UART_FIFO_TX4_8 | UART_FIFO_RX4_8 => 4
  | UART_FIFO_TX6_8 | UART_FIFO_RX6_8 => 6
  | UART_FIFO_TX7_8 | UART_FIFO_RX7_8 => 7

/-- Side of the FIFO a level macro is for. -/
def FifoLevel.role : FifoLevel → Role
  | UART_FIFO_TX1_8 | UART_FIFO_TX2_8 | UART_FIFO_TX4_8 | UART_FIFO_TX6_8
  | UART_FIFO_TX7_8 => Role.TX
  | UART_FIFO_RX1_8 | UART_FIFO_RX2_8 | UART_FIFO_RX4_8 | UART_FIFO_RX6_8
  | UART_FIFO_RX7_8 => Role.RX

/-! ## `MIL_UART_FIFOEn` (MIL_UART.c, lines 258-296) -/

/-- `void MIL_UART_FIFOEn(uint32_t base, uint8_t int_depth)`: the `if` chain
assigns the pair (`rxlevel`, `txlevel`), then the two driver calls follow. -/
def MIL_UART_FIFOEn (base : Nat) (int_depth : Nat) : List DriverCall :=
  let levels : FifoLevel × FifoLevel :=
    if int_depth ≥ 7 then (UART_FIFO_RX7_8, UART_FIFO_TX7_8)
    else if int_depth ≥ 5 then (UART_FIFO_RX6_8, UART_FIFO_TX6_8)
    else if int_depth ≥ 3 then (UART_FIFO_RX4_8, UART_FIFO_TX4_8)
    else if int_depth = 2 then (UART_FIFO_RX2_8, UART_FIFO_TX2_8)
    else (UART_FIFO_RX1_8, UART_FIFO_TX1_8)
  let rxlevel := levels.1
  let txlevel := levels.2
  [UARTFIFOLevelSet base txlevel rxlevel, UARTFIFOEnable base]

/-- The quantization table of the specification (section 8, item 3), as a
relation between a requested depth and a level in eighths: depth in {0,1}
gives 1/8, depth 2 gives 2/8, depth in {3,4} gives 4/8, depth in {5,6} gives
6/8, depth at least 7 gives 7/8. -/
def spec_watermark (depth k : Nat) : Prop :=
  ((depth = 0 ∨ depth = 1) ∧ k = 1) ∨ (depth = 2 ∧ k = 2) ∨
  ((depth = 3 ∨ depth = 4) ∧ k = 4) ∨ ((depth = 5 ∨ depth = 6) ∧ k = 6) ∨
  (7 ≤ depth ∧ k = 7)

instance (depth k : Nat) : Decidable (spec_watermark depth k) := by
  unfold spec_watermark; infer_instance

/-- Levels programmed by a trace: for each `UARTFIFOLevelSet` call, the base
and the fractions (in eighths) passed in the TX and in the RX position. -/
def programmedLevels : List DriverCall → List (Nat × Nat × Nat)
  | [] => []
  | UARTFIFOLevelSet b tx rx :: cs => (b, tx.eighths, rx.eighths) :: programmedLevels cs
  | _ :: cs => programmedLevels cs

/-! ## `MIL_InitUART` (MIL_UART.c, lines 108-210) -/

/-- Body of the `case UARTn_BASE:` arm of the `switch` of `MIL_InitUART`, up to
its `break`. -/
def MIL_InitUART_case : Fin 8 → List DriverCall
  | 0 => [SysCtlPeripheralEnable SYSCTL_PERIPH_UART0,
          SysCtlPeripheralEnable SYSCTL_PERIPH_GPIOA,
          GPIOPinConfigure GPIO_PA0_U0RX,
          GPIOPinConfigure GPIO_PA1_U0TX,
          GPIOPinTypeUART GPIO_PORTA_BASE [GPIO_PIN_0, GPIO_PIN_1]]
  | 1 => [SysCtlPeripheralEnable SYSCTL_PERIPH_UART1,
          SysCtlPeripheralEnable SYSCTL_PERIPH_GPIOB,
          GPIOPinConfigure GPIO_PB0_U1RX,
          GPIOPinConfigure GPIO_PB1_U1TX,
          GPIOPinTypeUART GPIO_PORTB_BASE [GPIO_PIN_0, GPIO_PIN_1]]
  | 2 => [SysCtlPeripheralEnable SYSCTL_PERIPH_UART2,
          SysCtlPeripheralEnable SYSCTL_PERIPH_GPIOD,
          GPIOPinConfigure GPIO_PD6_U2RX,
          GPIOPinConfigure GPIO_PD7_U2TX,
          GPIOPinTypeUART GPIO_PORTD_BASE [GPIO_PIN_6, GPIO_PIN_7]]
  | 3 => [SysCtlPeripheralEnable SYSCTL_PERIPH_UART3,
          SysCtlPeripheralEnable SYSCTL_PERIPH_GPIOC,
          GPIOPinConfigure GPIO_PC6_U3RX,
          GPIOPinConfigure GPIO_PC7_U3TX,
          GPIOPinTypeUART GPIO_PORTC_BASE [GPIO_PIN_6, GPIO_PIN_7]]
  | 4 => [SysCtlPeripheralEnable SYSCTL_PERIPH_UART4,
          SysCtlPeripheralEnable SYSCTL_PERIPH_GPIOC,
          GPIOPinConfigure GPIO_PC4_U4RX,
          GPIOPinConfigure GPIO_PC5_U4TX,
          GPIOPinTypeUART GPIO_PORTC_BASE [GPIO_PIN_4, GPIO_PIN_5]]
  | 5 => [SysCtlPeripheralEnable SYSCTL_PERIPH_UART5,
          SysCtlPeripheralEnable SYSCTL_PERIPH_GPIOE,
          GPIOPinConfigure GPIO_PE4_U5RX,
          GPIOPinConfigure GPIO_PE5_U5TX,
          GPIOPinTypeUART GPIO_PORTE_BASE [GPIO_PIN_4, GPIO_PIN_5]]
  | 6 => [SysCtlPeripheralEnable SYSCTL_PERIPH_UART6,
          SysCtlPeripheralEnable SYSCTL_PERIPH_GPIOD,
          GPIOPinConfigure GPIO_PD4_U6RX,
          GPIOPinConfigure GPIO_PD5_U6TX,
          GPIOPinTypeUART GPIO_PORTD_BASE [GPIO_PIN_4, GPIO_PIN_5]]
  | 7 => [SysCtlPeripheralEnable SYSCTL_PERIPH_UART7,
          SysCtlPeripheralEnable SYSCTL_PERIPH_GPIOE,
          GPIOPinConfigure GPIO_PE0_U7RX,
          GPIOPinConfigure GPIO_PE1_U7TX,
          GPIOPinTypeUART GPIO_PORTE_BASE [GPIO_PIN_0, GPIO_PIN_1]]

/-- The statement `switch(base){ ... }` of `MIL_InitUART`: the arm whose label
equals `base` runs; `default: break;` issues no call. -/
def MIL_InitUART_switch (hw : HwMemmap) (base : Nat) : List DriverCall :=
  if base = hw.UART0_BASE then MIL_InitUART_case 0
  else if base = hw.UART1_BASE then MIL_InitUART_case 1
  else if base = hw.UART2_BASE then MIL_InitUART_case 2
  else if base = hw.UART3_BASE then MIL_InitUART_case 3
  else if base = hw.UART4_BASE then MIL_InitUART_case 4
  else if base = hw.UART5_BASE then MIL_InitUART_case 5
  else if base = hw.UART6_BASE then MIL_InitUART_case 6
  else if base = hw.UART7_BASE then MIL_InitUART_case 7
  else []

/-- `void MIL_InitUART(uint32_t base,uint32_t baud_rate)`.  `sysclk` is the value
that the call `SysCtlClockGet()` returns. -/
def MIL_InitUART (hw : HwMemmap) (sysclk : Nat) (base baud_rate : Nat) : List DriverCall :=
  MIL_InitUART_switch hw base ++
  [SysCtlClockGet,
   UARTConfigSetExpClk base sysclk baud_rate
     [UART_CONFIG_WLEN_8, UART_CONFIG_STOP_ONE, UART_CONFIG_PAR_NONE],
   UARTEnable base,
   UARTFIFODisable base]

/-! ## `MIL_UART_InitISR` (MIL_UART.c, lines 231-238) -/

/-- `void MIL_UART_InitISR(uint32_t base,uint32_t int_flags,void (*pISR)(void))`;
the function pointer is the address it holds. -/
def MIL_UART_InitISR (base int_flags pISR : Nat) : List DriverCall :=
  [UARTIntEnable base int_flags, UARTIntRegister base pISR]

/-! ## Transmit loops (MIL_UART.c, lines 307-333) -/

/-- How a run over a buffer ends.  Buffer reads are bounds-checked: a read at an
index that is not inside the buffer stops the run with `outOfBounds`. -/
inductive Outcome
  | returned
  | outOfBounds (index : Nat)
  | outOfFuel
  deriving DecidableEq, Repr

/-- Observable run of a transmit function: the driver calls issued, the buffer
indices read (both in program order) and how the run ended. -/
structure Run where
  calls : List DriverCall
  reads : List Nat
  outcome : Outcome
  deriving DecidableEq, Repr

/-- Put calls and reads that happen before the run `r`. -/
def Run.after (calls : List DriverCall) (reads : List Nat) (r : Run) : Run :=
  { calls := calls ++ r.calls, reads := reads ++ r.reads, outcome := r.outcome }

/-- The loop `for(uint8_t i = 0; i < len;i++){ UARTCharPut(base,pMsg[i]);}` from
the state `i`; one unit of fuel per evaluation of the loop condition. -/
def MIL_UART_OutArray_loop (base : Nat) (pMsg : List Nat) (len : Nat) : Nat → Nat → Run
  | 0, _ => { calls := [], reads := [], outcome := Outcome.outOfFuel }
  | fuel + 1, i =>
    if i < len then
      match pMsg[i]? with
      | none => { calls := [], reads := [i], outcome := Outcome.outOfBounds i }
      | some c =>
        Run.after [UARTCharPut base c] [i]
          (MIL_UART_OutArray_loop base pMsg len fuel ((i + 1) % 256))
    else { calls := [], reads := [], outcome := Outcome.returned }

/-- `void MIL_UART_OutArray(uint32_t base, uint8_t *pMsg,uint8_t len)`.  The
parameter `len` is a `uint8_t`; the counter takes at most 256 values, so the
condition is evaluated at most 256 times. -/
def MIL_UART_OutArray (base : Nat) (pMsg : List Nat) (len : Nat) : Run :=
  MIL_UART_OutArray_loop base pMsg (len % 256) 256 0

/-- The loop `do{ UARTCharPut(base,*pMsg); pMsg++;}while(*pMsg);` with `pMsg`
pointing at index `p` of the buffer; one unit of fuel per execution of the
body. -/
def MIL_UART_OutCString_loop (base : Nat) (pMsg : List Nat) : Nat → Nat → Run
  | 0, _ => { calls := [], reads := [], outcome := Outcome.outOfFuel }
  | fuel + 1, p =>
    match pMsg[p]? with
    | none => { calls := [], reads := [p], outcome := Outcome.outOfBounds p }
    | some c =>
      Run.after [UARTCharPut base c] [p]
        (match pMsg[p + 1]? with
         | none => { calls := [], reads := [p + 1], outcome := Outcome.outOfBounds (p + 1) }
         | some t =>
           Run.after [] [p + 1]
             (if t ≠ 0 then MIL_UART_OutCString_loop base pMsg fuel (p + 1)
              else { calls := [], reads := [], outcome := Outcome.returned }))

/-- `void MIL_UART_OutCString(uint32_t base, uint8_t *pMsg)`.  Every execution
of the body reads one more index of the buffer, so the body runs at most
`pMsg.length` times before a read leaves the buffer. -/
def MIL_UART_OutCString (base : Nat) (pMsg : List Nat) : Run :=
  MIL_UART_OutCString_loop base pMsg (pMsg.length + 1) 0

/-- Bytes handed to `UARTCharPut` by a trace, with the base of each call. -/
def putBytes : List DriverCall → List (Nat × Nat)
  | [] => []
  | UARTCharPut b c :: cs => (b, c) :: putBytes cs
  | _ :: cs => putBytes cs

/-! ## Reading the selectors of `MIL_InitUART` -/

/-- UART whose clock gate a `SYSCTL_PERIPH_UARTn` selector names. -/
def SysCtlPeriph.uart? : SysCtlPeriph → Option (Fin 8)
  | SYSCTL_PERIPH_UART0 => some 0
  | SYSCTL_PERIPH_UART1 => some 1
  | SYSCTL_PERIPH_UART2 => some 2
  | SYSCTL_PERIPH_UART3 => some 3
  | SYSCTL_PERIPH_UART4 => some 4
  | SYSCTL_PERIPH_UART5 => some 5
  | SYSCTL_PERIPH_UART6 => some 6
  | SYSCTL_PERIPH_UART7 => some 7
  | _ => none

/-- GPIO port whose clock gate a `SYSCTL_PERIPH_GPIOx` selector names. -/
def SysCtlPeriph.gpio? : SysCtlPeriph → Option Port
  | SYSCTL_PERIPH_GPIOA => some Port.A
  | SYSCTL_PERIPH_GPIOB => some Port.B
  | SYSCTL_PERIPH_GPIOC => some Port.C
  | SYSCTL_PERIPH_GPIOD => some Port.D
  | SYSCTL_PERIPH_GPIOE => some Port.E
  | SYSCTL_PERIPH_GPIOF => some Port.F
  | _ => none

/-- GPIO port that a `GPIO_PORTx_BASE` selector names. -/
def GpioBase.port : GpioBase → Port
  | GPIO_PORTA_BASE => Port.A
  | GPIO_PORTB_BASE => Port.B
  | GPIO_PORTC_BASE => Port.C
  | GPIO_PORTD_BASE => Port.D
  | GPIO_PORTE_BASE => Port.E
  | GPIO_PORTF_BASE => Port.F

/-- Port and pin that a `GPIO_Pxn_UmRX` / `GPIO_Pxn_UmTX` selector routes (the
`Pxn` part of its name). -/
def PinMux.pad : PinMux → Port × Nat
  | GPIO_PA0_U0RX => (Port.A, 0) | GPIO_PA1_U0TX => (Port.A, 1)
  | GPIO_PB0_U1RX => (Port.B, 0) | GPIO_PB1_U1TX => (Port.B, 1)
  | GPIO_PD6_U2RX => (Port.D, 6) | GPIO_PD7_U2TX => (Port.D, 7)
  | GPIO_PC6_U3RX => (Port.C, 6) | GPIO_PC7_U3TX => (Port.C, 7)
  | GPIO_PC4_U4RX => (Port.C, 4) | GPIO_PC5_U4TX => (Port.C, 5)
  | GPIO_PE4_U5RX => (Port.E, 4) | GPIO_PE5_U5TX => (Port.E, 5)
  | GPIO_PD4_U6RX => (Port.D, 4) | GPIO_PD5_U6TX => (Port.D, 5)
  | GPIO_PE0_U7RX => (Port.E, 0) | GPIO_PE1_U7TX => (Port.E, 1)

/-- UART and direction that a `GPIO_Pxn_UmRX` / `GPIO_Pxn_UmTX` selector routes
the pin to (the `UmRX` / `UmTX` part of its name). -/
def PinMux.signal : PinMux → Fin 8 × Role
  | GPIO_PA0_U0RX => (0, Role.RX) | GPIO_PA1_U0TX => (0, Role.TX)
  | GPIO_PB0_U1RX => (1, Role.RX) | GPIO_PB1_U1TX => (1, Role.TX)
  | GPIO_PD6_U2RX => (2, Role.RX) | GPIO_PD7_U2TX => (2, Role.TX)
  | GPIO_PC6_U3RX => (3, Role.RX) | GPIO_PC7_U3TX => (3, Role.TX)
  | GPIO_PC4_U4RX => (4, Role.RX) | GPIO_PC5_U4TX => (4, Role.TX)
  | GPIO_PE4_U5RX => (5, Role.RX) | GPIO_PE5_U5TX => (5, Role.TX)
  | GPIO_PD4_U6RX => (6, Role.RX) | GPIO_PD5_U6TX => (6, Role.TX)
  | GPIO_PE0_U7RX => (7, Role.RX) | GPIO_PE1_U7TX => (7, Role.TX)

/-- Pin number that a `GPIO_PIN_n` macro names. -/
def GpioPin.number : GpioPin → Nat
  | GPIO_PIN_0 => 0 | GPIO_PIN_1 => 1 | GPIO_PIN_2 => 2 | GPIO_PIN_3 => 3
  | GPIO_PIN_4 => 4 | GPIO_PIN_5 => 5 | GPIO_PIN_6 => 6 | GPIO_PIN_7 => 7

/-- Pins that a trace routes with `GPIOPinConfigure`, in program order. -/
def routedPads : List DriverCall → List (Port × Nat)
  | [] => []
  | GPIOPinConfigure c :: cs => c.pad :: routedPads cs
  | _ :: cs => routedPads cs

/-- One row of the pin table of the specification (section 4.1). -/
structure UartPinout where
  rx : Port × Nat
  tx : Port × Nat
  deriving DecidableEq, Repr

/-- The pin table of the specification (section 4.1; the same table is the
`MIL_UART PIN MAP` comment of `MIL_UART.h`): RX pin and TX pin of each
identifier. -/
def pinout_of : Fin 8 → UartPinout
  | 0 => { rx := (Port.A, 0), tx := (Port.A, 1) }
  | 1 => { rx := (Port.B, 0), tx := (Port.B, 1) }
  | 2 => { rx := (Port.D, 6), tx := (Port.D, 7) }
  | 3 => { rx := (Port.C, 6), tx := (Port.C, 7) }
  | 4 => { rx := (Port.C, 4), tx := (Port.C, 5) }
  | 5 => { rx := (Port.E, 4), tx := (Port.E, 5) }
  | 6 => { rx := (Port.D, 4), tx := (Port.D, 5) }
  | 7 => { rx := (Port.E, 0), tx := (Port.E, 1) }

/-! ## Order of the calls in a trace -/

/-- Base of the UART whose registers a driver call accesses, if it accesses
any. -/
def DriverCall.uartBase? : DriverCall → Option Nat
  | UARTConfigSetExpClk b _ _ _ => some b
  | UARTEnable b => some b
  | UARTFIFODisable b => some b
  | UARTFIFOEnable b => some b
  | UARTFIFOLevelSet b _ _ => some b
  | UARTIntEnable b _ => some b
  | UARTIntRegister b _ => some b
  | UARTCharPut b _ => some b
  | UARTCharsAvail b => some b
  | UARTCharGet b => some b
  | _ => none

/-- Interrupt-enable and interrupt-register operations. -/
def DriverCall.isInterruptOp : DriverCall → Bool
  | UARTIntEnable _ _ => true
  | UARTIntRegister _ _ => true
  | _ => false

/-- Calls that program the enable bit, the FIFO or the baud rate and frame
format of a UART. -/
def DriverCall.isConfigOp : DriverCall → Bool
  | UARTConfigSetExpClk _ _ _ _ => true
  | UARTEnable _ => true
  | UARTFIFODisable _ => true
  | UARTFIFOEnable _ => true
  | UARTFIFOLevelSet _ _ _ => true
  | _ => false

/-- Pin-mux operations. -/
def DriverCall.isPinMuxOp : DriverCall → Bool
  | GPIOPinConfigure _ => true
  | GPIOPinTypeUART _ _ => true
  | _ => false

/-- Clock-gate operations. -/
def DriverCall.isClockGateOp : DriverCall → Bool
  | SysCtlPeripheralEnable _ => true
  | _ => false

/-- No call of the trace accesses the UART at `base` before the clock gate `g`
has been enabled. -/
def gateBeforeAccess (g : SysCtlPeriph) (base : Nat) : List DriverCall → Bool
  | [] => true
  | c :: cs =>
    if c = SysCtlPeripheralEnable g then true
    else (c.uartBase? != some base) && gateBeforeAccess g base cs

/-- No pin-mux operation follows the first `UARTEnable(base)` of the trace. -/
def muxBeforeEnable (base : Nat) : List DriverCall → Bool
  | [] => true
  | c :: cs =>
    if c = UARTEnable base then cs.all (fun d => !d.isPinMuxOp)
    else muxBeforeEnable base cs

/-! ## The peripheral behind the driver -/

/-- Modelled from the spec: the registers of one UART that the claims read
(the vendor hardware and `driverlib/uart.c` are not among the sources).  The
enable bit, the FIFO-enable bit, the programmed clock, baud and frame format,
the FIFO levels, the interrupt mask, the installed vector and the bytes handed
to the transmitter. -/
structure UartRegs where
  uarten : Bool
  fen : Bool
  line : Option (Nat × Nat × List ConfigFlag)
  ifls : Option (FifoLevel × FifoLevel)
  im : Nat
  vector : Option Nat
  sent : List Nat
  deriving DecidableEq, Repr

/-- Modelled from the spec: the state of a UART out of reset (section 4.6,
`UNINITIALIZED`): disabled, FIFO off, nothing programmed, no interrupt armed. -/
def UartRegs.reset : UartRegs :=
  { uarten := false, fen := false, line := none, ifls := none, im := 0,
    vector := none, sent := [] }

/-- The UARTs of the machine, by base address. -/
abbrev Uarts := Nat → UartRegs

/-- Change the registers of the UART at `base`. -/
def Uarts.modify (m : Uarts) (base : Nat) (f : UartRegs → UartRegs) : Uarts :=
  fun b => if b = base then f (m b) else m b

/-- Modelled from the spec: effect of one driver call on the UARTs (the vendor
`driverlib/uart.c` is not among the sources).  `UARTEnable` sets the enable bit
and turns the FIFO on; `UARTConfigSetExpClk` programs clock, baud and frame
format and leaves the UART enabled as `UARTEnable` does; `UARTFIFODisable` and
`UARTFIFOEnable` clear and set the FIFO-enable bit; `UARTFIFOLevelSet` stores
the two levels; `UARTIntEnable` sets the bits of the mask; `UARTIntRegister`
installs the vector; `UARTCharPut` hands one byte to the transmitter.  Clock
gates, pin-mux calls and the clock getter do not touch a UART register, and the
receive calls change none of the registers kept here. -/
def DriverCall.apply (m : Uarts) : DriverCall → Uarts
  | UARTConfigSetExpClk b clk baud cfg =>
    m.modify b (fun r => { r with uarten := true, fen := true, line := some (clk, baud, cfg) })
  | UARTEnable b => m.modify b (fun r => { r with uarten := true, fen := true })
  | UARTFIFODisable b => m.modify b (fun r => { r with fen := false })
  | UARTFIFOEnable b => m.modify b (fun r => { r with fen := true })
  | UARTFIFOLevelSet b tx rx => m.modify b (fun r => { r with ifls := some (tx, rx) })
  | UARTIntEnable b flags => m.modify b (fun r => { r with im := r.im ||| flags })
  | UARTIntRegister b h => m.modify b (fun r => { r with vector := some h })
  | UARTCharPut b c => m.modify b (fun r => { r with sent := r.sent ++ [c] })
  | _ => m

/-- Effect of a trace: its calls applied in program order. -/
def runCalls (calls : List DriverCall) (m : Uarts) : Uarts :=
  calls.foldl DriverCall.apply m

/-! ## The do-while of `MIL_UART_OutCString`, read by read -/

/-- Buffer indices read by `n` consecutive executions of the body of the
do-while whose first execution has `pMsg` at index `p`: each execution reads
its index for `UARTCharPut(base,*pMsg)` and, after `pMsg++`, the next index for
the test `while(*pMsg)`. -/
def doWhileReads : Nat → Nat → List Nat
  | _, 0 => []
  | p, n + 1 => p :: (p + 1) :: doWhileReads (p + 1) n

/-- The array `const char cstring[] = "By Marquez Jones";` of `main`
(main_polled.c, line 85): sixteen characters and the terminating zero. -/
def cstring : List Nat :=
  [0x42, 0x79, 0x20, 0x4D, 0x61, 0x72, 0x71, 0x75, 0x65, 0x7A, 0x20,
   0x4A, 0x6F, 0x6E, 0x65, 0x73, 0x00]

/-! ## The polled echo loop of `main` (main_polled.c, lines 91-104) -/

/-- Modelled from the spec: the receive side of UART1 as the echo loop sees it
(the vendor `UARTCharsAvail` and `UARTCharGet` are not among the sources).
`rx` is the queue of received values not yet read, oldest first:
`UARTCharsAvail` is true when it is not empty and `UARTCharGet` takes its
oldest value.  `calls` are the driver calls issued so far. -/
structure EchoState where
  rx : List Nat
  calls : List DriverCall
  deriving DecidableEq, Repr

/-- One execution of the body of `while(1){ ... }` in `main`:
`if(UARTCharsAvail(UART1_BASE))`, then `uint8_t rx_data =
UARTCharGet(UART1_BASE);` (the conversion to `uint8_t` keeps the low eight
bits) and `UARTCharPut(UART1_BASE,rx_data);`. -/
def main_loop_body (hw : HwMemmap) (s : EchoState) : EchoState :=
  match s.rx with
  | [] => { rx := [], calls := s.calls ++ [UARTCharsAvail hw.UART1_BASE] }
  | data :: rest =>
    let rx_data := data % 256
    { rx := rest,
      calls := s.calls ++ [UARTCharsAvail hw.UART1_BASE, UARTCharGet hw.UART1_BASE,
                           UARTCharPut hw.UART1_BASE rx_data] }

/-- The first `n` executions of the body of `while(1){ ... }` (the loop itself
never ends). -/
def main_loop (hw : HwMemmap) : Nat → EchoState → EchoState
  | 0, s => s
  | n + 1, s => main_loop hw n (main_loop_body hw s)

/-! ## The baud divisor behind `UARTConfigSetExpClk` -/

/-- Modelled from the spec: the divisor that the vendor `UARTConfigSetExpClk`
(`driverlib/uart.c`, not among the sources) derives from the clock and the baud
rate it is given, by the integer rule `div = ((clk*8)/b + 1)/2`. -/
def UARTConfigSetExpClk_div (ui32UARTClk ui32Baud : Nat) : Nat :=
  ((ui32UARTClk * 8) / ui32Baud + 1) / 2

/-- Modelled from the spec: the divisor is programmed as an integer part
`div/64` and a fraction `div%64`. -/
def divisorRegs (div : Nat) : Nat × Nat := (div / 64, div % 64)

/-- Modelled from the spec: the baud rate read back from a programmed divisor,
`clk*4/div` with `div` reassembled from its integer part and fraction. -/
def baudReadback (ui32UARTClk : Nat) (regs : Nat × Nat) : Nat :=
  (ui32UARTClk * 4) / (64 * regs.1 + regs.2)

/-- Divisors programmed by a trace: for each `UARTConfigSetExpClk` call, the
base and the integer part and fraction derived from the clock and baud rate
actually passed. -/
def programmedDivisors (calls : List DriverCall) : List (Nat × Nat × Nat) :=
  calls.filterMap fun c =>
    match c with
    | UARTConfigSetExpClk b clk baud _ => some (b, divisorRegs (UARTConfigSetExpClk_div clk baud))
    | _ => none

/-- The system clock of the demos, `MIL_16MHz` (MIL_CLK.h, line 30). -/
def MIL_16MHz : Nat := 16000000

/-- The default baud rate `MIL_DEFAULT_BAUD_115K` (MIL_UART.h, line 88). -/
def MIL_DEFAULT_BAUD_115K : Nat := 115200

/-- The baud rate `MIL_BAUD_9600` (MIL_UART.h, line 89). -/
def MIL_BAUD_9600 : Nat := 9600

/-- The baud rate `MIL_BAUD_57600` (MIL_UART.h, line 90). -/
def MIL_BAUD_57600 : Nat := 57600

/-- The baud rate `MIL_BAUD_38400` (MIL_UART.h, line 91). -/
def MIL_BAUD_38400 : Nat := 38400

/-- The baud rate `MIL_BAUD_19200` (MIL_UART.h, line 92). -/
def MIL_BAUD_19200 : Nat := 19200

/-! ## Theorems -/

/-- The `if` chain of `MIL_UART_FIFOEn`, one range of depths at a time. -/
theorem MIL_UART_FIFOEn_cases (base d : Nat) :
    (d ≤ 1 ∧ MIL_UART_FIFOEn base d =
        [UARTFIFOLevelSet base UART_FIFO_TX1_8 UART_FIFO_RX1_8, UARTFIFOEnable base]) ∨
    (d = 2 ∧ MIL_UART_FIFOEn base d =
        [UARTFIFOLevelSet base UART_FIFO_TX2_8 UART_FIFO_RX2_8, UARTFIFOEnable base]) ∨
    ((d = 3 ∨ d = 4) ∧ MIL_UART_FIFOEn base d =
        [UARTFIFOLevelSet base UART_FIFO_TX4_8 UART_FIFO_RX4_8, UARTFIFOEnable base]) ∨
    ((d = 5 ∨ d = 6) ∧ MIL_UART_FIFOEn base d =
        [UARTFIFOLevelSet base UART_FIFO_TX6_8 UART_FIFO_RX6_8, UARTFIFOEnable base]) ∨
    (7 ≤ d ∧ MIL_UART_FIFOEn base d =
        [UARTFIFOLevelSet base UART_FIFO_TX7_8 UART_FIFO_RX7_8, UARTFIFOEnable base]) := by
  unfold MIL_UART_FIFOEn
  by_cases h7 : d ≥ 7
  · simp [h7]
  by_cases h5 : d ≥ 5
  · have : d = 5 ∨ d = 6 := by omega
    simp [h7, h5, this]
  by_cases h3 : d ≥ 3
  · have : d = 3 ∨ d = 4 := by omega
    simp [h7, h5, h3, this]
  by_cases h2 : d = 2
  · simp [h2]
  · have : d ≤ 1 := by omega
    simp [h7, h5, h3, h2, this]

/-- C1: for every depth `d` (in particular every 8-bit one) and every base,
`MIL_UART_FIFOEn base d` programs exactly one pair of watermarks, on `base`,
and both are the level `k` that the quantization table of the specification
gives for `d` (0,1 to 1/8; 2 to 2/8; 3,4 to 4/8; 5,6 to 6/8; 7 and more to
7/8).  No depth is rejected, the level is the same for every other base, and
depths 7 and 100 both give 7/8. -/
theorem MIL_UART_FIFOEn_quantization (base d : Nat) :
    (∃ k, spec_watermark d k ∧
        programmedLevels (MIL_UART_FIFOEn base d) = [(base, k, k)] ∧
        ∀ base2, programmedLevels (MIL_UART_FIFOEn base2 d) = [(base2, k, k)]) ∧
    programmedLevels (MIL_UART_FIFOEn base 7) = [(base, 7, 7)] ∧
    programmedLevels (MIL_UART_FIFOEn base 100) = [(base, 7, 7)] := by
  refine ⟨?_, by simp [MIL_UART_FIFOEn, programmedLevels, FifoLevel.eighths],
    by simp [MIL_UART_FIFOEn, programmedLevels, FifoLevel.eighths]⟩
  have key : ∀ b, ∀ k, (∃ tx rx, MIL_UART_FIFOEn b d =
      [UARTFIFOLevelSet b tx rx, UARTFIFOEnable b] ∧ tx.eighths = k ∧ rx.eighths = k) →
      programmedLevels (MIL_UART_FIFOEn b d) = [(b, k, k)] := by
    rintro b k ⟨tx, rx, h, rfl, h2⟩
    rw [h]
    simp [programmedLevels, h2]
  rcases MIL_UART_FIFOEn_cases base d with h | h | h | h | h
  · refine ⟨1, ?_, ?_, ?_⟩
    · unfold spec_watermark; omega
    · exact key base 1 ⟨_, _, h.2, rfl, rfl⟩
    · intro b2
      rcases MIL_UART_FIFOEn_cases b2 d with g | g | g | g | g <;>
        first | exact key b2 1 ⟨_, _, g.2, rfl, rfl⟩ | omega
  · refine ⟨2, ?_, ?_, ?_⟩
    · unfold spec_watermark; omega
    · exact key base 2 ⟨_, _, h.2, rfl, rfl⟩
    · intro b2
      rcases MIL_UART_FIFOEn_cases b2 d with g | g | g | g | g <;>
        first | exact key b2 2 ⟨_, _, g.2, rfl, rfl⟩ | omega
  · refine ⟨4, ?_, ?_, ?_⟩
    · unfold spec_watermark; omega
    · exact key base 4 ⟨_, _, h.2, rfl, rfl⟩
    · intro b2
      rcases MIL_UART_FIFOEn_cases b2 d with g | g | g | g | g <;>
        first | exact key b2 4 ⟨_, _, g.2, rfl, rfl⟩ | omega
  · refine ⟨6, ?_, ?_, ?_⟩
    · unfold spec_watermark; omega
    · exact key base 6 ⟨_, _, h.2, rfl, rfl⟩
    · intro b2
      rcases MIL_UART_FIFOEn_cases b2 d with g | g | g | g | g <;>
        first | exact key b2 6 ⟨_, _, g.2, rfl, rfl⟩ | omega
  · refine ⟨7, ?_, ?_, ?_⟩
    · unfold spec_watermark; omega
    · exact key base 7 ⟨_, _, h.2, rfl, rfl⟩
    · intro b2
      rcases MIL_UART_FIFOEn_cases b2 d with g | g | g | g | g <;>
        first | exact key b2 7 ⟨_, _, g.2, rfl, rfl⟩ | omega

/-- C2: for every base and every depth, `MIL_UART_FIFOEn` issues exactly two
driver calls, `UARTFIFOLevelSet(base, txlevel, rxlevel)` and then
`UARTFIFOEnable(base)`; the level in the TX position is a TX macro, the level
in the RX position is an RX macro, and both name the same fraction.  Depth 3
gives TX 4/8 and RX 4/8, followed by the FIFO enable. -/
theorem MIL_UART_FIFOEn_calls (base d : Nat) :
    (∃ txlevel rxlevel,
        MIL_UART_FIFOEn base d =
          [UARTFIFOLevelSet base txlevel rxlevel, UARTFIFOEnable base] ∧
        txlevel.role = Role.TX ∧ rxlevel.role = Role.RX ∧
        txlevel.eighths = rxlevel.eighths) ∧
    MIL_UART_FIFOEn base 3 =
      [UARTFIFOLevelSet base UART_FIFO_TX4_8 UART_FIFO_RX4_8, UARTFIFOEnable base] ∧
    programmedLevels (MIL_UART_FIFOEn base 3) = [(base, 4, 4)] := by
  refine ⟨?_, by simp [MIL_UART_FIFOEn], by simp [MIL_UART_FIFOEn, programmedLevels,
    FifoLevel.eighths]⟩
  rcases MIL_UART_FIFOEn_cases base d with h | h | h | h | h <;>
    exact ⟨_, _, h.2, rfl, rfl, rfl⟩

/-- The counting loop of `MIL_UART_OutArray` from any reachable state: with
`i ≤ len`, `len` an 8-bit value inside the buffer and more fuel than
iterations left, the loop sends the bytes at `i, ..., len - 1` and returns. -/
theorem MIL_UART_OutArray_loop_run (base : Nat) (B : List Nat) (len : Nat)
    (h8 : len < 256) (hlen : len ≤ B.length) :
    ∀ fuel i, i ≤ len → len - i < fuel →
      MIL_UART_OutArray_loop base B len fuel i =
        { calls := ((B.take len).drop i).map (UARTCharPut base),
          reads := List.range' i (len - i),
          outcome := Outcome.returned } := by
  intro fuel
  induction fuel with
  | zero => intro i _ h; omega
  | succ fuel ih =>
    intro i hi hf
    unfold MIL_UART_OutArray_loop
    by_cases hlt : i < len
    · have hB : i < B.length := by omega
      have hT : i < (B.take len).length := by simp; omega
      have hmod : (i + 1) % 256 = i + 1 := Nat.mod_eq_of_lt (by omega)
      have hsub : len - i = (len - (i + 1)) + 1 := by omega
      rw [if_pos hlt, List.getElem?_eq_getElem hB, hmod, ih (i + 1) (by omega) (by omega)]
      rw [List.drop_eq_getElem_cons hT, hsub, List.range'_succ]
      simp [Run.after, List.getElem_take]
    · have hil : i = len := by omega
      subst hil
      simp

/-- C3: for every base, every buffer `B` and every 8-bit `len` not larger than
the length of `B`, `MIL_UART_OutArray base B len` returns, having read the
indices `0, ..., len - 1` and called `UARTCharPut` exactly `len` times, the
`i`-th call carrying `(base, B[i])`; the value of a byte (zero or not) plays no
part, and `len = 0` sends nothing. -/
theorem MIL_UART_OutArray_sends (base : Nat) (B : List Nat) (len : Nat)
    (h8 : len < 256) (hlen : len ≤ B.length) :
    MIL_UART_OutArray base B len =
      { calls := (B.take len).map (UARTCharPut base),
        reads := List.range len,
        outcome := Outcome.returned } ∧
    (MIL_UART_OutArray base B len).calls.length = len ∧
    (∀ i, i < len →
      (MIL_UART_OutArray base B len).calls[i]? = (B[i]?).map (UARTCharPut base)) ∧
    (MIL_UART_OutArray base B 0).calls = [] := by
  have hrun : MIL_UART_OutArray base B len =
      { calls := (B.take len).map (UARTCharPut base),
        reads := List.range len,
        outcome := Outcome.returned } := by
    unfold MIL_UART_OutArray
    rw [Nat.mod_eq_of_lt h8,
      MIL_UART_OutArray_loop_run base B len h8 hlen 256 0 (Nat.zero_le _) (by omega)]
    simp [List.range_eq_range']
  refine ⟨hrun, ?_, ?_, ?_⟩
  · rw [hrun]; simp; omega
  · intro i hi
    rw [hrun]
    simp [List.getElem?_take, hi]
  · simp [MIL_UART_OutArray, MIL_UART_OutArray_loop]

/-- Witness of C3: the three zero bytes of scenario S4 on UART1. -/
theorem MIL_UART_OutArray_sends_witness :
    (3 < 256 ∧ 3 ≤ [0x00, 0x00, 0x00].length) ∧
    MIL_UART_OutArray tm4c123.UART1_BASE [0x00, 0x00, 0x00] 3 =
      { calls := [UARTCharPut tm4c123.UART1_BASE 0x00, UARTCharPut tm4c123.UART1_BASE 0x00,
                  UARTCharPut tm4c123.UART1_BASE 0x00],
        reads := [0, 1, 2],
        outcome := Outcome.returned } :=
  ⟨⟨by decide, by decide⟩,
   (MIL_UART_OutArray_sends tm4c123.UART1_BASE [0x00, 0x00, 0x00] 3 (by decide) (by decide)).1⟩

/-- C4 (the code at the failing input): on the C string "Hi", that is the
buffer 0x48, 0x69, 0x00, `MIL_UART_OutCString` returns after two calls of
`UARTCharPut`, carrying 0x48 and 0x69; the zero byte at index 2 is read by the
loop test and is not sent, so the three bytes 0x48, 0x69, 0x00 of the claim are
not what the line carries. -/
theorem MIL_UART_OutCString_Hi :
    MIL_UART_OutCString tm4c123.UART1_BASE [0x48, 0x69, 0x00] =
      { calls := [UARTCharPut tm4c123.UART1_BASE 0x48, UARTCharPut tm4c123.UART1_BASE 0x69],
        reads := [0, 1, 1, 2],
        outcome := Outcome.returned } ∧
    putBytes (MIL_UART_OutCString tm4c123.UART1_BASE [0x48, 0x69, 0x00]).calls ≠
      [(tm4c123.UART1_BASE, 0x48), (tm4c123.UART1_BASE, 0x69), (tm4c123.UART1_BASE, 0x00)] := by
  decide

/-- C5 (the code at the failing input): on the buffer 0x00, 0x41, 0x00, whose
first byte is the zero, `MIL_UART_OutCString` sends the zero, tests the byte at
index 1, which is not zero, and goes on: it returns after two calls of
`UARTCharPut`, carrying 0x00 and 0x41, not after one. -/
theorem MIL_UART_OutCString_leading_zero :
    MIL_UART_OutCString tm4c123.UART1_BASE [0x00, 0x41, 0x00] =
      { calls := [UARTCharPut tm4c123.UART1_BASE 0x00, UARTCharPut tm4c123.UART1_BASE 0x41],
        reads := [0, 1, 1, 2],
        outcome := Outcome.returned } ∧
    putBytes (MIL_UART_OutCString tm4c123.UART1_BASE [0x00, 0x41, 0x00]).calls ≠
      [(tm4c123.UART1_BASE, 0x00)] := by
  decide

/-- The eight UART base addresses are pairwise distinct. -/
theorem HwMemmap.base_injective (hw : HwMemmap) : Function.Injective hw.base := by
  have h := hw.distinct
  have e : [hw.UART0_BASE, hw.UART1_BASE, hw.UART2_BASE, hw.UART3_BASE,
            hw.UART4_BASE, hw.UART5_BASE, hw.UART6_BASE, hw.UART7_BASE] = List.ofFn hw.base := by
    simp only [List.ofFn_succ, List.ofFn_zero]
    rfl
  rw [e] at h
  exact List.nodup_ofFn.mp h

/-- The `switch` of `MIL_InitUART` on the base of UART `n` runs the arm of
`UARTn_BASE` and no other. -/
theorem MIL_InitUART_switch_base (hw : HwMemmap) (n : Fin 8) :
    MIL_InitUART_switch hw (hw.base n) = MIL_InitUART_case n := by
  have hinj := hw.base_injective
  show (if hw.base n = hw.base 0 then MIL_InitUART_case 0
    else if hw.base n = hw.base 1 then MIL_InitUART_case 1
    else if hw.base n = hw.base 2 then MIL_InitUART_case 2
    else if hw.base n = hw.base 3 then MIL_InitUART_case 3
    else if hw.base n = hw.base 4 then MIL_InitUART_case 4
    else if hw.base n = hw.base 5 then MIL_InitUART_case 5
    else if hw.base n = hw.base 6 then MIL_InitUART_case 6
    else if hw.base n = hw.base 7 then MIL_InitUART_case 7
    else []) = _
  simp only [hinj.eq_iff]
  fin_cases n <;> rfl

/-- The `switch` of `MIL_InitUART` on a base that is no UART base runs the
`default` arm. -/
theorem MIL_InitUART_switch_default (hw : HwMemmap) (base : Nat)
    (h : ∀ n : Fin 8, base ≠ hw.base n) : MIL_InitUART_switch hw base = [] := by
  have h0 := h 0
  have h1 := h 1
  have h2 := h 2
  have h3 := h 3
  have h4 := h 4
  have h5 := h 5
  have h6 := h 6
  have h7 := h 7
  simp only [HwMemmap.base] at h0 h1 h2 h3 h4 h5 h6 h7
  simp [MIL_InitUART_switch, h0, h1, h2, h3, h4, h5, h6, h7]

/-- C6: for each of the eight UART bases and every baud rate (and clock),
`MIL_InitUART` issues exactly these calls, in this order: the clock gate of the
UART, the clock gate of the GPIO port that carries its RX and TX pins, the RX
and then the TX alternate-function selector of that UART (the two pins of its
row of the pin table), the UART pin type on that same port for exactly those
two pins, the clock getter and `UARTConfigSetExpClk` with its result, the
caller's baud rate and the 8-N-1 flags, `UARTEnable`, `UARTFIFODisable`.  Hence
no call accesses the UART before its clock gate is enabled, no pin-mux call
follows `UARTEnable`, and `UARTFIFODisable` is the last call. -/
theorem MIL_InitUART_order (hw : HwMemmap) (n : Fin 8) (sysclk baud_rate : Nat) :
    ∃ uartGate gpioGate rxMux txMux port pins,
      MIL_InitUART hw sysclk (hw.base n) baud_rate =
        [SysCtlPeripheralEnable uartGate,
         SysCtlPeripheralEnable gpioGate,
         GPIOPinConfigure rxMux,
         GPIOPinConfigure txMux,
         GPIOPinTypeUART port pins,
         SysCtlClockGet,
         UARTConfigSetExpClk (hw.base n) sysclk baud_rate
           [UART_CONFIG_WLEN_8, UART_CONFIG_STOP_ONE, UART_CONFIG_PAR_NONE],
         UARTEnable (hw.base n),
         UARTFIFODisable (hw.base n)] ∧
      uartGate.uart? = some n ∧
      gpioGate.gpio? = some port.port ∧
      rxMux.signal = (n, Role.RX) ∧
      txMux.signal = (n, Role.TX) ∧
      rxMux.pad = (pinout_of n).rx ∧
      txMux.pad = (pinout_of n).tx ∧
      rxMux.pad.1 = port.port ∧
      txMux.pad.1 = port.port ∧
      gpioGate.gpio? = some rxMux.pad.1 ∧
      pins.map GpioPin.number = [rxMux.pad.2, txMux.pad.2] ∧
      gateBeforeAccess uartGate (hw.base n)
        (MIL_InitUART hw sysclk (hw.base n) baud_rate) = true ∧
      muxBeforeEnable (hw.base n) (MIL_InitUART hw sysclk (hw.base n) baud_rate) = true ∧
      (MIL_InitUART hw sysclk (hw.base n) baud_rate).getLast? =
        some (UARTFIFODisable (hw.base n)) := by
  simp only [MIL_InitUART, MIL_InitUART_switch_base]
  fin_cases n <;>
    exact ⟨_, _, _, _, _, _, rfl, rfl, rfl, rfl, rfl, rfl, rfl, rfl, rfl, rfl, rfl,
      by simp [MIL_InitUART_case, gateBeforeAccess],
      by simp [MIL_InitUART_case, muxBeforeEnable, DriverCall.isPinMuxOp],
      by simp [MIL_InitUART_case]⟩

/-- C7: the pin-mux stage of `MIL_InitUART` is defined on each of the eight
identifiers and agrees with the pin table.  On the base of UART `n` exactly the
arm of `UARTn_BASE` runs; it gates `SYSCTL_PERIPH_UARTn` and the GPIO port of
the table row of `n`, routes the RX pin and the TX pin of that row with the
`UnRX` and `UnTX` selectors, and passes to `GPIOPinTypeUART` that same port and
the mask made of exactly the masks of those two pins.  The two pins of one
identifier differ, and no pin is routed for two identifiers. -/
theorem MIL_InitUART_pinmux_table (hw : HwMemmap) (n : Fin 8) :
    MIL_InitUART_switch hw (hw.base n) = MIL_InitUART_case n ∧
    (∃ uartGate gpioGate rxMux txMux port pins,
      MIL_InitUART_switch hw (hw.base n) =
        [SysCtlPeripheralEnable uartGate,
         SysCtlPeripheralEnable gpioGate,
         GPIOPinConfigure rxMux,
         GPIOPinConfigure txMux,
         GPIOPinTypeUART port pins] ∧
      uartGate.uart? = some n ∧
      gpioGate.gpio? = some (pinout_of n).rx.1 ∧
      rxMux.signal = (n, Role.RX) ∧ rxMux.pad = (pinout_of n).rx ∧
      txMux.signal = (n, Role.TX) ∧ txMux.pad = (pinout_of n).tx ∧
      port.port = (pinout_of n).rx.1 ∧ port.port = (pinout_of n).tx.1 ∧
      pins.map GpioPin.number = [(pinout_of n).rx.2, (pinout_of n).tx.2]) ∧
    (routedPads (MIL_InitUART_switch hw (hw.base n))).Nodup ∧
    (∀ k : Fin 8, ∀ pad ∈ routedPads (MIL_InitUART_switch hw (hw.base n)),
      pad ∈ routedPads (MIL_InitUART_switch hw (hw.base k)) → k = n) := by
  simp only [MIL_InitUART_switch_base]
  refine ⟨trivial, ?_, ?_, ?_⟩
  · fin_cases n <;>
      exact ⟨_, _, _, _, _, _, rfl, rfl, rfl, rfl, rfl, rfl, rfl, rfl, rfl, rfl⟩
  · revert n; decide
  · revert n; decide

/-- Registers of the UART at the base of UART `n` after `MIL_InitUART`, from
any prior state: enabled, FIFO off. -/
theorem MIL_InitUART_regs (hw : HwMemmap) (n : Fin 8) (sysclk baud_rate : Nat) (m : Uarts) :
    (runCalls (MIL_InitUART hw sysclk (hw.base n) baud_rate) m (hw.base n)).uarten = true ∧
    (runCalls (MIL_InitUART hw sysclk (hw.base n) baud_rate) m (hw.base n)).fen = false := by
  simp only [MIL_InitUART, MIL_InitUART_switch_base]
  fin_cases n <;>
    simp [runCalls, MIL_InitUART_case, DriverCall.apply, Uarts.modify]

/-- C8: for each of the eight UARTs, every baud rate and every prior state of
the peripheral, after `MIL_InitUART` the UART has its enable bit set and its
FIFO-enable bit clear.  The FIFO is on just before the last call (the vendor
`UARTEnable` turns it on) and the final `UARTFIFODisable` turns it off, also
when an earlier `MIL_UART_FIFOEn` had enabled it.  The trace has no
interrupt-enable or interrupt-register call, so the interrupt mask and the
vector of every UART are unchanged; from reset no interrupt is armed. -/
theorem MIL_InitUART_live_no_fifo (hw : HwMemmap) (n : Fin 8) (sysclk baud_rate : Nat)
    (m : Uarts) :
    (runCalls (MIL_InitUART hw sysclk (hw.base n) baud_rate) m (hw.base n)).uarten = true ∧
    (runCalls (MIL_InitUART hw sysclk (hw.base n) baud_rate) m (hw.base n)).fen = false ∧
    (runCalls (MIL_InitUART hw sysclk (hw.base n) baud_rate).dropLast m (hw.base n)).fen
      = true ∧
    (∀ d, (runCalls (MIL_UART_FIFOEn (hw.base n) d) m (hw.base n)).fen = true ∧
      (runCalls (MIL_UART_FIFOEn (hw.base n) d ++
        MIL_InitUART hw sysclk (hw.base n) baud_rate) m (hw.base n)).fen = false) ∧
    (MIL_InitUART hw sysclk (hw.base n) baud_rate).all (fun c => !c.isInterruptOp) = true ∧
    (∀ b, (runCalls (MIL_InitUART hw sysclk (hw.base n) baud_rate) m b).im = (m b).im ∧
      (runCalls (MIL_InitUART hw sysclk (hw.base n) baud_rate) m b).vector = (m b).vector) ∧
    (∀ b, (runCalls (MIL_InitUART hw sysclk (hw.base n) baud_rate)
        (fun _ => UartRegs.reset) b).im = 0 ∧
      (runCalls (MIL_InitUART hw sysclk (hw.base n) baud_rate)
        (fun _ => UartRegs.reset) b).vector = none) := by
  have hkeep : ∀ (m0 : Uarts) b,
      (runCalls (MIL_InitUART hw sysclk (hw.base n) baud_rate) m0 b).im = (m0 b).im ∧
      (runCalls (MIL_InitUART hw sysclk (hw.base n) baud_rate) m0 b).vector = (m0 b).vector := by
    intro m0 b
    simp only [MIL_InitUART, MIL_InitUART_switch_base]
    fin_cases n <;>
      (simp only [runCalls, MIL_InitUART_case, List.cons_append, List.nil_append,
         List.foldl_cons, List.foldl_nil, DriverCall.apply, Uarts.modify]
       split_ifs <;> exact ⟨rfl, rfl⟩)
  refine ⟨(MIL_InitUART_regs hw n sysclk baud_rate m).1,
    (MIL_InitUART_regs hw n sysclk baud_rate m).2, ?_, ?_, ?_, hkeep m, ?_⟩
  · simp only [MIL_InitUART, MIL_InitUART_switch_base]
    fin_cases n <;>
      simp [runCalls, MIL_InitUART_case, DriverCall.apply, Uarts.modify]
  · intro d
    refine ⟨?_, ?_⟩
    · rcases MIL_UART_FIFOEn_cases (hw.base n) d with h | h | h | h | h <;>
        (rw [h.2]; simp [runCalls, DriverCall.apply, Uarts.modify])
    · rw [runCalls, List.foldl_append]
      exact (MIL_InitUART_regs hw n sysclk baud_rate _).2
  · simp only [MIL_InitUART, MIL_InitUART_switch_base]
    fin_cases n <;> simp [MIL_InitUART_case, DriverCall.isInterruptOp]
  · intro b
    have h := hkeep (fun _ => UartRegs.reset) b
    exact ⟨h.1.trans rfl, h.2.trans rfl⟩

/-- C9: for every base that is none of the eight UART base addresses,
`MIL_InitUART` runs the `default` arm, so it issues no clock-gate and no
pin-mux call, and it does not stop there: after the clock getter it issues
`UARTConfigSetExpClk` (with the clock, the baud rate and 8-N-1), `UARTEnable`
and `UARTFIFODisable` on that base, in that order. -/
theorem MIL_InitUART_unknown_base (hw : HwMemmap) (sysclk base baud_rate : Nat)
    (h : ∀ n : Fin 8, base ≠ hw.base n) :
    MIL_InitUART_switch hw base = [] ∧
    MIL_InitUART hw sysclk base baud_rate =
      [SysCtlClockGet,
       UARTConfigSetExpClk base sysclk baud_rate
         [UART_CONFIG_WLEN_8, UART_CONFIG_STOP_ONE, UART_CONFIG_PAR_NONE],
       UARTEnable base,
       UARTFIFODisable base] ∧
    (MIL_InitUART hw sysclk base baud_rate).all
      (fun c => !c.isClockGateOp && !c.isPinMuxOp) = true := by
  have hs := MIL_InitUART_switch_default hw base h
  refine ⟨hs, ?_, ?_⟩ <;>
    simp [MIL_InitUART, hs, DriverCall.isClockGateOp, DriverCall.isPinMuxOp]

/-- Witness of C9: base 0 on the TM4C123 at 16 MHz and 115200 baud. -/
theorem MIL_InitUART_unknown_base_witness :
    (∀ n : Fin 8, 0 ≠ tm4c123.base n) ∧
    MIL_InitUART tm4c123 16000000 0 115200 =
      [SysCtlClockGet,
       UARTConfigSetExpClk 0 16000000 115200
         [UART_CONFIG_WLEN_8, UART_CONFIG_STOP_ONE, UART_CONFIG_PAR_NONE],
       UARTEnable 0,
       UARTFIFODisable 0] :=
  ⟨by decide, (MIL_InitUART_unknown_base tm4c123 16000000 0 115200 (by decide)).2.1⟩

/-- C10: for every base, mask and handler, `MIL_UART_InitISR` issues exactly
two driver calls: first `UARTIntEnable(base, mask)` with the caller's mask,
then `UARTIntRegister(base, handler)` with the caller's handler, so the
interrupt enables are programmed before the vector is installed.  Both calls
are interrupt operations on `base`; none programs the enable bit, the FIFO or
the baud rate and frame format. -/
theorem MIL_UART_InitISR_calls (base int_flags pISR : Nat) :
    MIL_UART_InitISR base int_flags pISR =
      [UARTIntEnable base int_flags, UARTIntRegister base pISR] ∧
    (MIL_UART_InitISR base int_flags pISR)[0]? = some (UARTIntEnable base int_flags) ∧
    (MIL_UART_InitISR base int_flags pISR)[1]? = some (UARTIntRegister base pISR) ∧
    (MIL_UART_InitISR base int_flags pISR).length = 2 ∧
    (MIL_UART_InitISR base int_flags pISR).all
      (fun c => c.isInterruptOp && !c.isConfigOp && c.uartBase? == some base) = true := by
  simp [MIL_UART_InitISR, DriverCall.isInterruptOp, DriverCall.isConfigOp,
    DriverCall.uartBase?]

/-- C11: the level that `MIL_UART_FIFOEn` programs for a depth `d` is a
supported level nearest to `d`: it is one of 1, 2, 4, 6, 7 (eighths), and no
supported level `s` is closer to `d` than it is.  Each supported depth 1, 2, 4,
6, 7 is programmed as itself. -/
theorem MIL_UART_FIFOEn_nearest (base d : Nat) :
    (∃ k, programmedLevels (MIL_UART_FIFOEn base d) = [(base, k, k)] ∧
      k ∈ [1, 2, 4, 6, 7] ∧
      ∀ s ∈ [1, 2, 4, 6, 7],
        Int.natAbs ((d : Int) - (k : Int)) ≤ Int.natAbs ((d : Int) - (s : Int))) ∧
    (∀ s ∈ [1, 2, 4, 6, 7], programmedLevels (MIL_UART_FIFOEn base s) = [(base, s, s)]) := by
  refine ⟨?_, by simp [MIL_UART_FIFOEn, programmedLevels, FifoLevel.eighths]⟩
  rcases MIL_UART_FIFOEn_cases base d with h | h | h | h | h
  · refine ⟨1, by rw [h.2]; rfl, by simp, ?_⟩
    simp only [List.mem_cons, List.mem_singleton, List.not_mem_nil, or_false]
    omega
  · refine ⟨2, by rw [h.2]; rfl, by simp, ?_⟩
    simp only [List.mem_cons, List.mem_singleton, List.not_mem_nil, or_false]
    omega
  · refine ⟨4, by rw [h.2]; rfl, by simp, ?_⟩
    simp only [List.mem_cons, List.mem_singleton, List.not_mem_nil, or_false]
    omega
  · refine ⟨6, by rw [h.2]; rfl, by simp, ?_⟩
    simp only [List.mem_cons, List.mem_singleton, List.not_mem_nil, or_false]
    omega
  · refine ⟨7, by rw [h.2]; rfl, by simp, ?_⟩
    simp only [List.mem_cons, List.mem_singleton, List.not_mem_nil, or_false]
    omega

/-- The `switch` of `MIL_InitUART` issues no `UARTConfigSetExpClk` call. -/
theorem programmedDivisors_switch (hw : HwMemmap) (base : Nat) :
    programmedDivisors (MIL_InitUART_switch hw base) = [] := by
  unfold MIL_InitUART_switch
  split_ifs <;> rfl

/-- C12: with the system clock at 16 MHz and a baud rate `b` among 9600, 19200,
38400, 57600 and 115200, `MIL_InitUART` (on any base, the eight UARTs
included) has exactly one divisor programmed, on its base: the one that the
rule `div = ((clk*8)/b + 1)/2` gives for the clock and the baud rate passed
unchanged, stored as `div/64` and `div%64`.  Read back as `clk*4/div` it
differs from `b` by at most 1% of `b`.  The products `clk*8` and `clk*4` fit in
32 bits. -/
theorem MIL_InitUART_baud_one_percent (hw : HwMemmap) (base b : Nat)
    (hb : b ∈ [MIL_BAUD_9600, MIL_BAUD_19200, MIL_BAUD_38400, MIL_BAUD_57600,
      MIL_DEFAULT_BAUD_115K]) :
    programmedDivisors (MIL_InitUART hw MIL_16MHz base b) =
      [(base, divisorRegs (UARTConfigSetExpClk_div MIL_16MHz b))] ∧
    64 * (divisorRegs (UARTConfigSetExpClk_div MIL_16MHz b)).1 +
      (divisorRegs (UARTConfigSetExpClk_div MIL_16MHz b)).2 =
        UARTConfigSetExpClk_div MIL_16MHz b ∧
    Int.natAbs
      ((baudReadback MIL_16MHz (divisorRegs (UARTConfigSetExpClk_div MIL_16MHz b)) : Int)
        - (b : Int)) * 100 ≤ b ∧
    MIL_16MHz * 8 < 2 ^ 32 := by
  have hprog : programmedDivisors (MIL_InitUART hw MIL_16MHz base b) =
      [(base, divisorRegs (UARTConfigSetExpClk_div MIL_16MHz b))] := by
    have hs := programmedDivisors_switch hw base
    unfold programmedDivisors at hs ⊢
    simp [MIL_InitUART, List.filterMap_append, hs]
  refine ⟨hprog, ?_, ?_, by decide⟩
  · simp only [divisorRegs]
    omega
  · simp only [List.mem_cons, List.mem_singleton, List.not_mem_nil, or_false] at hb
    rcases hb with h | h | h | h | h <;> subst h <;> decide

/-- Witness of C12: UART1 of the TM4C123 at the default baud rate; the divisor
is 556 (integer part 8, fraction 44) and reads back as 115107. -/
theorem MIL_InitUART_baud_one_percent_witness :
    MIL_DEFAULT_BAUD_115K ∈ [MIL_BAUD_9600, MIL_BAUD_19200, MIL_BAUD_38400, MIL_BAUD_57600,
      MIL_DEFAULT_BAUD_115K] ∧
    programmedDivisors (MIL_InitUART tm4c123 MIL_16MHz tm4c123.UART1_BASE
      MIL_DEFAULT_BAUD_115K) = [(tm4c123.UART1_BASE, 8, 44)] ∧
    baudReadback MIL_16MHz (8, 44) = 115107 :=
  ⟨by decide,
   (MIL_InitUART_baud_one_percent tm4c123 tm4c123.UART1_BASE MIL_DEFAULT_BAUD_115K
      (by decide)).1.trans (by decide),
   by decide⟩

/-- Indices read by `n` executions of the body from index `p`: none if `n = 0`,
else exactly `p, ..., p + n`. -/
theorem mem_doWhileReads (i : Nat) : ∀ n p, i ∈ doWhileReads p n ↔ 0 < n ∧ p ≤ i ∧ i ≤ p + n := by
  intro n
  induction n with
  | zero => intro p; simp [doWhileReads]
  | succ n ih =>
    intro p
    simp only [doWhileReads, List.mem_cons, ih]
    omega

/-- The do-while of `MIL_UART_OutCString` from index `p`, when the buffer has a
zero at an index `j` above `p` and none strictly between: the body runs
`j - p` times, sends the bytes at `p, ..., j - 1` and the loop returns on
reading the zero at `j`. -/
theorem MIL_UART_OutCString_loop_stops (base : Nat) (B : List Nat) (j : Nat)
    (hz : B[j]? = some 0) (hmin : ∀ i, i < j → 1 ≤ i → B[i]? ≠ some 0) :
    ∀ fuel p, p < j → j - p ≤ fuel →
      MIL_UART_OutCString_loop base B fuel p =
        { calls := ((B.take j).drop p).map (UARTCharPut base),
          reads := doWhileReads p (j - p),
          outcome := Outcome.returned } := by
  have hjlen : j < B.length := by
    rcases List.getElem?_eq_some.mp hz with ⟨h, _⟩
    exact h
  intro fuel
  induction fuel with
  | zero => intro p hp hf; omega
  | succ fuel ih =>
    intro p hp hf
    have hpB : p < B.length := by omega
    have hT : p < (B.take j).length := by simp; omega
    have hsub : j - p = (j - (p + 1)) + 1 := by omega
    unfold MIL_UART_OutCString_loop
    rw [List.getElem?_eq_getElem hpB, List.drop_eq_getElem_cons hT, hsub]
    by_cases hlast : p + 1 = j
    · have hz2 : B[p + 1]? = some 0 := by rw [hlast]; exact hz
      have hnil : List.drop (p + 1) (List.take j B) = [] := by
        apply List.drop_eq_nil_of_le; simp; omega
      have h0 : j - (p + 1) = 0 := by omega
      simp [hz2, hnil, h0, Run.after, doWhileReads, List.getElem_take]
    · have hp1 : p + 1 < j := by omega
      have hB1 : p + 1 < B.length := by omega
      have hne : B[p + 1] ≠ 0 := by
        intro h
        exact hmin (p + 1) hp1 (by omega) (by rw [List.getElem?_eq_getElem hB1, h])
      rw [List.getElem?_eq_getElem hB1]
      simp [hne, ih (p + 1) hp1 (by omega), Run.after, doWhileReads, List.getElem_take]

/-- The do-while of `MIL_UART_OutCString` from an index `p` inside the buffer,
when no byte after `p` is zero: the body runs for every index up to the last,
sends all the bytes from `p` on, and the test after the last byte reads the
index `B.length`, which is outside the buffer. -/
theorem MIL_UART_OutCString_loop_overruns (base : Nat) (B : List Nat)
    (hnz : ∀ i, i < B.length → 1 ≤ i → B[i]? ≠ some 0) :
    ∀ fuel p, p < B.length → B.length - p ≤ fuel →
      MIL_UART_OutCString_loop base B fuel p =
        { calls := (B.drop p).map (UARTCharPut base),
          reads := doWhileReads p (B.length - p),
          outcome := Outcome.outOfBounds B.length } := by
  intro fuel
  induction fuel with
  | zero => intro p hp hf; omega
  | succ fuel ih =>
    intro p hp hf
    have hsub : B.length - p = (B.length - (p + 1)) + 1 := by omega
    unfold MIL_UART_OutCString_loop
    rw [List.getElem?_eq_getElem hp, List.drop_eq_getElem_cons hp, hsub]
    by_cases hlast : p + 1 = B.length
    · have hnone : B[p + 1]? = none := List.getElem?_eq_none (by omega)
      have hnil : List.drop (p + 1) B = [] := List.drop_eq_nil_of_le (by omega)
      have h0 : B.length - (p + 1) = 0 := by omega
      simp [hnone, hnil, h0, Run.after, doWhileReads, hlast]
    · have hB1 : p + 1 < B.length := by omega
      have hne : B[p + 1] ≠ 0 := by
        intro h
        exact hnz (p + 1) hB1 (by omega) (by rw [List.getElem?_eq_getElem hB1, h])
      rw [List.getElem?_eq_getElem hB1]
      simp only [hne, ih (p + 1) hB1 (by omega), Run.after, doWhileReads, ne_eq,
        not_false_eq_true, if_true, List.map_cons, List.cons_append, List.nil_append,
        List.singleton_append]

/-- `MIL_UART_OutCString` on a buffer whose first zero at an index of 1 or
more is at `j`. -/
theorem MIL_UART_OutCString_stops (base : Nat) (B : List Nat) (j : Nat) (hj : 1 ≤ j)
    (hz : B[j]? = some 0) (hmin : ∀ i, i < j → 1 ≤ i → B[i]? ≠ some 0) :
    MIL_UART_OutCString base B =
      { calls := (B.take j).map (UARTCharPut base),
        reads := doWhileReads 0 j,
        outcome := Outcome.returned } := by
  have hjlen : j < B.length := by
    rcases List.getElem?_eq_some.mp hz with ⟨h, _⟩
    exact h
  unfold MIL_UART_OutCString
  rw [MIL_UART_OutCString_loop_stops base B j hz hmin (B.length + 1) 0 (by omega) (by omega)]
  simp

/-- `MIL_UART_OutCString` on a non-empty buffer with no zero at any index of 1
or more. -/
theorem MIL_UART_OutCString_overruns (base : Nat) (B : List Nat) (hn : 1 ≤ B.length)
    (hnz : ∀ i, i < B.length → 1 ≤ i → B[i]? ≠ some 0) :
    MIL_UART_OutCString base B =
      { calls := B.map (UARTCharPut base),
        reads := doWhileReads 0 B.length,
        outcome := Outcome.outOfBounds B.length } := by
  unfold MIL_UART_OutCString
  rw [MIL_UART_OutCString_loop_overruns base B hnz (B.length + 1) 0 (by omega) (by omega)]
  simp

/-- The last index read by one or more executions of the body is the index
tested by the last of them. -/
theorem doWhileReads_getLast : ∀ n p, (doWhileReads p (n + 1)).getLast? = some (p + n + 1) := by
  intro n
  induction n with
  | zero => intro p; simp [doWhileReads]
  | succ n ih =>
    intro p
    have h := ih (p + 1)
    rw [doWhileReads, List.getLast?_cons_cons, List.getLast?_cons, h]
    simp
    omega

/-- C14: for every buffer `B` with a zero byte at an index of 1 or more, `j`
being the least such index, `MIL_UART_OutCString` returns after exactly `j`
calls of `UARTCharPut`, carrying `B[0], ..., B[j-1]` in order.  The first read
is the one of index 0 for the first call and index 0 is never read again, so
the byte at index 0 is sent whatever its value, without being tested.  The last
read is the test of index `j`, and no call carries the byte at `j`. -/
theorem MIL_UART_OutCString_do_while (base : Nat) (B : List Nat) (j : Nat) (hj : 1 ≤ j)
    (hz : B[j]? = some 0) (hmin : ∀ i, i < j → 1 ≤ i → B[i]? ≠ some 0) :
    (MIL_UART_OutCString base B).outcome = Outcome.returned ∧
    (MIL_UART_OutCString base B).calls = (B.take j).map (UARTCharPut base) ∧
    (MIL_UART_OutCString base B).calls.length = j ∧
    (∀ i, i < j →
      (MIL_UART_OutCString base B).calls[i]? = (B[i]?).map (UARTCharPut base)) ∧
    (MIL_UART_OutCString base B).calls.head? = B.head?.map (UARTCharPut base) ∧
    (MIL_UART_OutCString base B).reads = 0 :: 1 :: doWhileReads 1 (j - 1) ∧
    0 ∉ (MIL_UART_OutCString base B).reads.tail ∧
    (MIL_UART_OutCString base B).reads.getLast? = some j ∧
    (MIL_UART_OutCString base B).calls[j]? = none := by
  have hjlen : j < B.length := by
    rcases List.getElem?_eq_some.mp hz with ⟨h, _⟩
    exact h
  obtain ⟨k, rfl⟩ : ∃ k, j = k + 1 := ⟨j - 1, by omega⟩
  rw [MIL_UART_OutCString_stops base B (k + 1) hj hz hmin]
  refine ⟨rfl, rfl, ?_, ?_, ?_, ?_, ?_, ?_, ?_⟩
  · simp; omega
  · intro i hi
    simp [List.getElem?_take, hi]
  · cases B with
    | nil => simp at hjlen
    | cons b bs => simp
  · simp [doWhileReads]
  · simp [doWhileReads, mem_doWhileReads]
  · simpa using doWhileReads_getLast k 0
  · simp

/-- Witness of C14: the banner `cstring` that `main` passes to
`MIL_UART_OutCString`; its zero is at index 16, so sixteen bytes are sent and
the zero is not. -/
theorem MIL_UART_OutCString_do_while_witness :
    (1 ≤ 16 ∧ cstring[16]? = some 0 ∧ ∀ i, i < 16 → 1 ≤ i → cstring[i]? ≠ some 0) ∧
    (MIL_UART_OutCString tm4c123.UART1_BASE cstring).calls =
      (cstring.take 16).map (UARTCharPut tm4c123.UART1_BASE) :=
  ⟨⟨by decide, by decide, by decide⟩,
   (MIL_UART_OutCString_do_while tm4c123.UART1_BASE cstring 16 (by decide) (by decide)
      (by decide)).2.1⟩

/-- C15: the buffer reads of `MIL_UART_OutCString`, reads being bounds-checked.
If `B` has a zero at an index of 1 or more and `j` is the least such index, the
call returns, the indices it has read are exactly `0, ..., j`, and all of them
are inside `B`.  If `B` is not empty and has no zero at any index of 1 or more,
the indices read are exactly `0, ..., B.length`: the call reads the index
`B.length`, past the end of the buffer, and ends out of bounds there.  The
one-byte buffer holding 0x00 (the empty C string) is such a buffer. -/
theorem MIL_UART_OutCString_read_bounds (base : Nat) (B : List Nat) :
    (∀ j, 1 ≤ j → B[j]? = some 0 → (∀ i, i < j → 1 ≤ i → B[i]? ≠ some 0) →
      (MIL_UART_OutCString base B).outcome = Outcome.returned ∧
      (∀ i, i ∈ (MIL_UART_OutCString base B).reads ↔ i ≤ j) ∧
      (∀ i ∈ (MIL_UART_OutCString base B).reads, i < B.length)) ∧
    (1 ≤ B.length → (∀ i, i < B.length → 1 ≤ i → B[i]? ≠ some 0) →
      (MIL_UART_OutCString base B).outcome = Outcome.outOfBounds B.length ∧
      B.length ∈ (MIL_UART_OutCString base B).reads ∧
      (∀ i, i ∈ (MIL_UART_OutCString base B).reads ↔ i ≤ B.length)) ∧
    MIL_UART_OutCString base [0x00] =
      { calls := [UARTCharPut base 0x00], reads := [0, 1],
        outcome := Outcome.outOfBounds 1 } := by
  refine ⟨?_, ?_, ?_⟩
  · intro j hj hz hmin
    have hjlen : j < B.length := by
      rcases List.getElem?_eq_some.mp hz with ⟨h, _⟩
      exact h
    rw [MIL_UART_OutCString_stops base B j hj hz hmin]
    refine ⟨rfl, ?_, ?_⟩
    · intro i
      simp only [mem_doWhileReads]
      omega
    · intro i hi
      simp only [mem_doWhileReads] at hi
      omega
  · intro hn hnz
    rw [MIL_UART_OutCString_overruns base B hn hnz]
    refine ⟨rfl, ?_, ?_⟩
    · simp only [mem_doWhileReads]
      omega
    · intro i
      simp only [mem_doWhileReads]
      omega
  · simp [MIL_UART_OutCString, MIL_UART_OutCString_loop, Run.after]

/-- Witness of C15: the banner `cstring` of `main` for the first part (zero at
index 16, inside the buffer of length 17) and the one-byte buffer holding 0x00
for the second (index 1 is read, outside the buffer of length 1). -/
theorem MIL_UART_OutCString_read_bounds_witness :
    ((1 ≤ 16 ∧ cstring[16]? = some 0 ∧ ∀ i, i < 16 → 1 ≤ i → cstring[i]? ≠ some 0) ∧
      (MIL_UART_OutCString tm4c123.UART1_BASE cstring).outcome = Outcome.returned ∧
      ∀ i ∈ (MIL_UART_OutCString tm4c123.UART1_BASE cstring).reads, i < cstring.length) ∧
    ((1 ≤ [0x00].length ∧ ∀ i, i < [0x00].length → 1 ≤ i → [0x00][i]? ≠ some 0) ∧
      (MIL_UART_OutCString tm4c123.UART1_BASE [0x00]).outcome =
        Outcome.outOfBounds [0x00].length ∧
      [0x00].length ∈ (MIL_UART_OutCString tm4c123.UART1_BASE [0x00]).reads) :=
  ⟨⟨⟨by decide, by decide, by decide⟩,
    ((MIL_UART_OutCString_read_bounds tm4c123.UART1_BASE cstring).1 16 (by decide)
      (by decide) (by decide)).1,
    ((MIL_UART_OutCString_read_bounds tm4c123.UART1_BASE cstring).1 16 (by decide)
      (by decide) (by decide)).2.2⟩,
   ⟨⟨by decide, by decide⟩,
    ((MIL_UART_OutCString_read_bounds tm4c123.UART1_BASE [0x00]).2.1 (by decide)
      (by decide)).1,
    ((MIL_UART_OutCString_read_bounds tm4c123.UART1_BASE [0x00]).2.1 (by decide)
      (by decide)).2.1⟩⟩

/-- The bytes put by a trace followed by another. -/
theorem putBytes_append (xs ys : List DriverCall) :
    putBytes (xs ++ ys) = putBytes xs ++ putBytes ys := by
  induction xs with
  | nil => rfl
  | cons c cs ih => cases c <;> simp [putBytes, ih]

/-- The echo loop from any state whose pending values are 8-bit: `n`
executions of the body put the `n` oldest pending values (all of them if there
are fewer), in order, after what was put before, and leave the others
pending. -/
theorem main_loop_run (hw : HwMemmap) :
    ∀ n (s : EchoState), (∀ b ∈ s.rx, b < 256) →
      putBytes (main_loop hw n s).calls =
        putBytes s.calls ++ (s.rx.take n).map (fun b => (hw.UART1_BASE, b)) ∧
      (main_loop hw n s).rx = s.rx.drop n := by
  intro n
  induction n with
  | zero => intro s _; simp [main_loop]
  | succ n ih =>
    rintro ⟨rx, calls⟩ h
    cases rx with
    | nil =>
      have h2 := ih { rx := [], calls := calls ++ [UARTCharsAvail hw.UART1_BASE] } (by simp)
      simpa [main_loop, main_loop_body, putBytes_append, putBytes] using h2
    | cons b rest =>
      have hb : b % 256 = b := Nat.mod_eq_of_lt (h b (by simp))
      have h2 := ih { rx := rest,
                      calls := calls ++ [UARTCharsAvail hw.UART1_BASE,
                        UARTCharGet hw.UART1_BASE, UARTCharPut hw.UART1_BASE b] }
        (fun x hx => h x (by simp at hx ⊢; exact Or.inr hx))
      simpa [main_loop, main_loop_body, putBytes_append, putBytes, hb] using h2

/-- C13: the polled echo loop of `main`, with the receive side of UART1 a queue
of 8-bit values.  For every input sequence and every number `n` of executions
of the loop body, the bytes put, all on UART1, are the first `n` bytes of the
input (all of them if there are fewer), value for value and in order; the
others are still pending, so what was put followed by what is pending is the
input.  One execution of the body with a byte pending takes the oldest byte
and puts exactly that byte in the same execution; with none pending it puts
nothing. -/
theorem main_loop_echo (hw : HwMemmap) (input : List Nat) (n : Nat)
    (h8 : ∀ b ∈ input, b < 256) :
    putBytes (main_loop hw n { rx := input, calls := [] }).calls =
      (input.take n).map (fun b => (hw.UART1_BASE, b)) ∧
    (main_loop hw n { rx := input, calls := [] }).rx = input.drop n ∧
    (putBytes (main_loop hw n { rx := input, calls := [] }).calls).map Prod.snd ++
      (main_loop hw n { rx := input, calls := [] }).rx = input ∧
    (∀ b rest calls, b < 256 →
      main_loop_body hw { rx := b :: rest, calls := calls } =
        { rx := rest,
          calls := calls ++ [UARTCharsAvail hw.UART1_BASE, UARTCharGet hw.UART1_BASE,
                             UARTCharPut hw.UART1_BASE b] }) ∧
    (∀ calls, main_loop_body hw { rx := [], calls := calls } =
        { rx := [], calls := calls ++ [UARTCharsAvail hw.UART1_BASE] }) := by
  have h := main_loop_run hw n { rx := input, calls := [] } h8
  have h1 : putBytes (main_loop hw n { rx := input, calls := [] }).calls =
      (input.take n).map (fun b => (hw.UART1_BASE, b)) := by
    simpa [putBytes] using h.1
  refine ⟨h1, h.2, ?_, ?_, ?_⟩
  · rw [h1, h.2]
    simp [List.map_map, Function.comp_def]
  · intro b rest calls hb
    simp [main_loop_body, Nat.mod_eq_of_lt hb]
  · intro calls
    rfl

/-- Witness of C13: three bytes received (a zero and 0xFF among them), five
executions of the loop body: the three bytes are put in order and nothing is
left pending. -/
theorem main_loop_echo_witness :
    (∀ b ∈ [0x41, 0x00, 0xFF], b < 256) ∧
    putBytes (main_loop tm4c123 5 { rx := [0x41, 0x00, 0xFF], calls := [] }).calls =
      [(tm4c123.UART1_BASE, 0x41), (tm4c123.UART1_BASE, 0x00), (tm4c123.UART1_BASE, 0xFF)] ∧
    (main_loop tm4c123 5 { rx := [0x41, 0x00, 0xFF], calls := [] }).rx = [] :=
  ⟨by decide,
   (main_loop_echo tm4c123 [0x41, 0x00, 0xFF] 5 (by decide)).1.trans (by decide),
   (main_loop_echo tm4c123 [0x41, 0x00, 0xFF] 5 (by decide)).2.1.trans (by decide)⟩

end MIL
